import Mathlib

/-!
Shallow embedding of the Go rule engine in `src/game_logic.py` (class `GoGame`).

Conventions of the embedding:
* the numpy board `np.zeros((size, size), dtype=int)` becomes a total function
  `Nat → Nat → Nat`; only indices below `size` are ever read or written by the
  engine (bounds are checked before any access, as in the Python source), and
  board comparison (`np.array_equal`) compares exactly the `size × size` grid;
* cell values are the source's integers: 0 = empty, 1 = black, 2 = white;
* the `defaultdict(int)` prisoner map keyed by the strings "black"/"white"
  becomes a two-field structure `Prisoners` (both fields start at 0, matching
  the defaultdict default);
* Python lists `history` / `prev_boards` (appended at the end, popped from the
  end, indexed with `[-2]`) become Lean lists with the most recent element at
  the head, so `append` is `cons`, `pop` is `tail`, `[-1]` is element 0 and
  `[-2]` is element 1;
* move coordinates are `Int`, since the Python methods receive arbitrary ints
  and explicitly test `col < 0`;
* `nx.connected_components` over the grid graph restricted to the stones of one
  color is modelled by an explicit fuelled flood fill (the spec itself states a
  flood-fill is an equivalent implementation); the surrounding iteration order
  is the row-major scan of the board;
* `calculate_score` returns floats `prisoners + 0` and `prisoners + 6.5`; both
  are exactly representable, so the score is modelled over `Rat`.
-/

namespace GoSpec

/-- A board: cell value at (column, row); 0 empty, 1 black, 2 white. -/
abbrev Board := Nat → Nat → Nat

/-- The `self.prisoners` defaultdict, keyed by "black" / "white". -/
structure Prisoners where
  black : Nat
  white : Nat
deriving DecidableEq, Repr

/-- The mutable state of the Python class `GoGame`. -/
structure Game where
  size : Nat
  board : Board
  blackTurn : Bool
  prisoners : Prisoners
  history : List (Board × Prisoners)
  prevBoards : List Board

/-- Model of `GoGame.__init__(size)`: empty board, black to move, no prisoners. -/
def initGame (size : Nat) : Game :=
  { size := size
    board := fun _ _ => 0
    blackTurn := true
    prisoners := { black := 0, white := 0 }
    history := []
    prevBoards := [] }

/-- Point update of a board cell, as in `self.board[col, row] = v`. -/
def update (b : Board) (x y v : Nat) : Board :=
  fun i j => if i = x ∧ j = y then v else b i j

/-- Stone value written by the current player: `1 if self.black_turn else 2`. -/
def stoneVal (blackTurn : Bool) : Nat :=
  if blackTurn then 1 else 2

/-- Cell value of the opponent of the current player. -/
def oppVal (blackTurn : Bool) : Nat :=
  if blackTurn then 2 else 1

/-- Model of `GoGame.is_valid_move(col, row)`. -/
def is_valid_move (g : Game) (col row : Int) : Bool :=
  if col < 0 ∨ (g.size : Int) ≤ col ∨ row < 0 ∨ (g.size : Int) ≤ row then
    false
  else if g.board col.toNat row.toNat ≠ 0 then
    false
  else
    true

/-- The four neighbour offsets `[(-1, 0), (1, 0), (0, -1), (0, 1)]`. -/
def dirs : List (Int × Int) := [(-1, 0), (1, 0), (0, -1), (0, 1)]

/-- Model of `GoGame.has_no_liberties(group)`: no coordinate of the group has an
in-bounds empty neighbour; off-board neighbours are skipped. -/
def has_no_liberties (size : Nat) (b : Board) (group : List (Nat × Nat)) : Bool :=
  group.all fun p =>
    dirs.all fun d =>
      let nx : Int := (p.1 : Int) + d.1
      let ny : Int := (p.2 : Int) + d.2
      if 0 ≤ nx ∧ nx < (size : Int) ∧ 0 ≤ ny ∧ ny < (size : Int) then
        ! (b nx.toNat ny.toNat == 0)
      else
        true

/-- In-bounds 4-neighbours of a point (the grid-graph adjacency). -/
def inBoundsNeighbors (size : Nat) (p : Nat × Nat) : List (Nat × Nat) :=
  dirs.filterMap fun d =>
    let nx : Int := (p.1 : Int) + d.1
    let ny : Int := (p.2 : Int) + d.2
    if 0 ≤ nx ∧ nx < (size : Int) ∧ 0 ≤ ny ∧ ny < (size : Int) then
      some (nx.toNat, ny.toNat)
    else
      none

/-- Fuelled flood fill collecting the connected component (through cells of
color `c`) of the stones in the work list; models one connected component of
the grid graph restricted to the stones of color `c`. -/
def floodFill (size : Nat) (b : Board) (c : Nat) :
    Nat → List (Nat × Nat) → List (Nat × Nat) → List (Nat × Nat)
  | 0, _, visited => visited
  | _ + 1, [], visited => visited
  | fuel + 1, p :: frontier, visited =>
    if p ∈ visited then
      floodFill size b c fuel frontier visited
    else
      let ns := (inBoundsNeighbors size p).filter fun q => b q.1 q.2 == c
      floodFill size b c fuel (ns ++ frontier) (p :: visited)

/-- Fuel bound for the flood fill: each position enters the work list at most
once from each of its four neighbours, plus once as a seed. -/
def floodFuel (size : Nat) : Nat :=
  8 * size * size + 8

/-- Row-major list of every board coordinate. -/
def allPositions (size : Nat) : List (Nat × Nat) :=
  (List.range size).flatMap fun x => (List.range size).map fun y => (x, y)

/-- Scan over all coordinates, emitting the connected component of every stone
of color `c` not already collected. -/
def groupsLoop (size : Nat) (b : Board) (c : Nat) :
    List (Nat × Nat) → List (Nat × Nat) → List (List (Nat × Nat))
  | [], _ => []
  | p :: rest, seen =>
    if p ∈ seen then
      groupsLoop size b c rest seen
    else if b p.1 p.2 == c then
      let grp := floodFill size b c (floodFuel size) [p] []
      grp :: groupsLoop size b c rest (grp ++ seen)
    else
      groupsLoop size b c rest seen

/-- Model of `GoGame.get_stone_groups(color)`: the maximal 4-connected groups of the
stones of color code `c` (`nx.connected_components` on the grid graph with all
other cells removed, realised as a flood fill over the row-major scan). -/
def get_stone_groups (size : Nat) (b : Board) (c : Nat) : List (List (Nat × Nat)) :=
  groupsLoop size b c (allPositions size) []

/-- Model of `prisoners[self_color] += n` for the placing color. -/
def addPris (p : Prisoners) (blackTurn : Bool) (n : Nat) : Prisoners :=
  if blackTurn then
    { p with black := p.black + n }
  else
    { p with white := p.white + n }

/-- The prisoner count of the given color (`prisoners["black"]` etc.). -/
def prisOf (p : Prisoners) (blackTurn : Bool) : Nat :=
  if blackTurn then p.black else p.white

/-- Model of the removal loop `for x, y in group: self.board[x, y] = 0`. -/
def removeGroup (b : Board) : List (Nat × Nat) → Board
  | [] => b
  | q :: rest => removeGroup (update b q.1 q.2 0) rest

/-- The capture loop of `GoGame.capture_stones`: over the (pre-computed) list
of opponent groups, in order, remove each group that has no liberties on the
current board and credit its size to the placing color. -/
def captureLoop (size : Nat) (blackTurn : Bool) :
    List (List (Nat × Nat)) → Board → Prisoners → Board × Prisoners
  | [], b, p => (b, p)
  | g :: rest, b, p =>
    if has_no_liberties size b g then
      captureLoop size blackTurn rest (removeGroup b g) (addPris p blackTurn g.length)
    else
      captureLoop size blackTurn rest b p

/-- Model of `GoGame.capture_stones(col, row)`: the group list is materialised from the
board as it is when the method is entered; liberty checks then run against the
mutating board. `black_turn` has not been flipped yet, so it is the placing
color. -/
def capture_stones (size : Nat) (b : Board) (blackTurn : Bool) (p : Prisoners) :
    Board × Prisoners :=
  captureLoop size blackTurn (get_stone_groups size b (oppVal blackTurn)) b p

/-- Grid equality of two boards, `np.array_equal` on `size × size` arrays. -/
def beqBoard (size : Nat) (b1 b2 : Board) : Bool :=
  (List.range size).all fun x => (List.range size).all fun y => b1 x y == b2 x y

/-- Model of `GoGame.is_ko_violation()`: with at least two recorded boards, compare the
current board with `prev_boards[-2]`. -/
def is_ko_violation (g : Game) : Bool :=
  match g.prevBoards with
  | _ :: b0 :: _ => beqBoard g.size g.board b0
  | _ => false

/-- The board right after the tentative placement (step 3 of the move). -/
def placedBoard (g : Game) (col row : Int) : Board :=
  update g.board col.toNat row.toNat (stoneVal g.blackTurn)

/-- The game state after the speculative phase of `place_stone`: snapshots
pushed, stone placed, captures resolved — everything before the ko check. -/
def attemptState (g : Game) (col row : Int) : Game :=
  let bp := capture_stones g.size (placedBoard g col row) g.blackTurn g.prisoners
  { g with
    board := bp.1
    prisoners := bp.2
    history := (g.board, g.prisoners) :: g.history
    prevBoards := g.board :: g.prevBoards }

/-- Model of `GoGame.place_stone(col, row)`: returns the Python boolean result together
with the state of the object after the call. -/
def place_stone (g : Game) (col row : Int) : Bool × Game :=
  if is_valid_move g col row then
    let g2 := attemptState g col row
    if is_ko_violation g2 then
      (false, { g2 with board := update g2.board col.toNat row.toNat 0 })
    else
      (true, { g2 with blackTurn := ! g.blackTurn })
  else
    (false, g)

/-- The score record returned by `calculate_score`. -/
structure Score where
  black : Rat
  white : Rat
deriving DecidableEq, Repr

/-- Model of `GoGame.calculate_score()`: prisoner counting plus a 6.5 komi for white. -/
def calculate_score (g : Game) : Score :=
  { black := (g.prisoners.black : Rat)
    white := (g.prisoners.white : Rat) + 13 / 2 }

/-- Model of `GoGame.undo_move()`: pop the last snapshot if any and flip the turn. -/
def undo_move (g : Game) : Game :=
  match g.history with
  | [] => g
  | (b, p) :: rest =>
    { g with board := b, prisoners := p, history := rest, blackTurn := ! g.blackTurn }

/-- Play a list of moves, keeping only the final state (results discarded). -/
def play : Game → List (Int × Int) → Game
  | g, [] => g
  | g, m :: ms => play (place_stone g m.1 m.2).2 ms

/-- All moves of the list are accepted in sequence (every call returns true). -/
def allSucceed : Game → List (Int × Int) → Bool
  | _, [] => true
  | g, m :: ms => (place_stone g m.1 m.2).1 && allSucceed (place_stone g m.1 m.2).2 ms

/-- Iterate `undo_move` `n` times. -/
def undoN : Game → Nat → Game
  | g, 0 => g
  | g, n + 1 => undoN (undo_move g) n

/-- The move sequence building the standard 4-stone ko shape on a 4×4 board:
black builds the left jaw, white the right jaw, black takes the ko point
(2,1), and white's final move at (1,1) captures the black stone at (2,1). -/
def koMoves : List (Int × Int) :=
  [(1, 0), (2, 0), (0, 1), (3, 1), (1, 2), (2, 2), (2, 1), (1, 1)]

/-- The position after white has just captured one black stone in the ko. -/
def koGame8 : Game :=
  play (initGame 4) koMoves

example : allSucceed (initGame 4) koMoves = true := by decide
example : koGame8.board 1 1 = 2 := by decide
example : koGame8.board 2 1 = 0 := by decide
example : koGame8.prisoners = { black := 0, white := 1 } := by decide
example : (place_stone koGame8 2 1).1 = false := by decide
example : (place_stone koGame8 2 1).2.board 1 1 = 0 := by decide

/-! ### Branch characterisations of `place_stone` -/

theorem place_stone_invalid {g : Game} {col row : Int}
    (h : is_valid_move g col row = false) :
    place_stone g col row = (false, g) := by
  simp [place_stone, h]

theorem place_stone_ko {g : Game} {col row : Int}
    (hv : is_valid_move g col row = true)
    (hko : is_ko_violation (attemptState g col row) = true) :
    place_stone g col row =
      (false, { attemptState g col row with
                 board := update (attemptState g col row).board col.toNat row.toNat 0 }) := by
  simp [place_stone, hv, hko]

theorem place_stone_commit {g : Game} {col row : Int}
    (hv : is_valid_move g col row = true)
    (hko : is_ko_violation (attemptState g col row) = false) :
    place_stone g col row =
      (true, { attemptState g col row with blackTurn := ! g.blackTurn }) := by
  simp [place_stone, hv, hko]

theorem place_stone_true_cases {g : Game} {col row : Int}
    (h : (place_stone g col row).1 = true) :
    is_valid_move g col row = true ∧ is_ko_violation (attemptState g col row) = false := by
  by_cases hv : is_valid_move g col row = true
  · by_cases hko : is_ko_violation (attemptState g col row) = true
    · rw [place_stone_ko hv hko] at h
      simp at h
    · exact ⟨hv, by simpa using hko⟩
  · rw [place_stone_invalid (by simpa using hv)] at h
    simp at h

theorem attemptState_board (g : Game) (col row : Int) :
    (attemptState g col row).board =
      (capture_stones g.size (placedBoard g col row) g.blackTurn g.prisoners).1 := rfl

theorem attemptState_prisoners (g : Game) (col row : Int) :
    (attemptState g col row).prisoners =
      (capture_stones g.size (placedBoard g col row) g.blackTurn g.prisoners).2 := rfl

theorem attemptState_history (g : Game) (col row : Int) :
    (attemptState g col row).history = (g.board, g.prisoners) :: g.history := rfl

theorem attemptState_prevBoards (g : Game) (col row : Int) :
    (attemptState g col row).prevBoards = g.board :: g.prevBoards := rfl

theorem attemptState_blackTurn (g : Game) (col row : Int) :
    (attemptState g col row).blackTurn = g.blackTurn := rfl

theorem attemptState_size (g : Game) (col row : Int) :
    (attemptState g col row).size = g.size := rfl

/-! ### The liberty predicate, characterised -/

/-- Four-directional adjacency of two coordinates. -/
def adjacent (p q : Nat × Nat) : Prop :=
  (p.1 = q.1 ∧ (p.2 = q.2 + 1 ∨ q.2 = p.2 + 1)) ∨
  (p.2 = q.2 ∧ (p.1 = q.1 + 1 ∨ q.1 = p.1 + 1))

theorem ite_true_iff {c : Prop} [Decidable c] {x : Bool} :
    ((if c then x else true) = true) ↔ (c → x = true) := by
  by_cases h : c <;> simp [h]

theorem hnl_point (size : Nat) (b : Board) (p : Nat × Nat) :
    (∀ d ∈ dirs,
      (if 0 ≤ (p.1 : Int) + d.1 ∧ (p.1 : Int) + d.1 < (size : Int) ∧
           0 ≤ (p.2 : Int) + d.2 ∧ (p.2 : Int) + d.2 < (size : Int) then
        ! (b ((p.1 : Int) + d.1).toNat ((p.2 : Int) + d.2).toNat == 0)
      else
        true) = true) ↔
    ∀ q : Nat × Nat, q.1 < size → q.2 < size → adjacent p q → b q.1 q.2 ≠ 0 := by
  obtain ⟨x, y⟩ := p
  simp only [dirs, List.forall_mem_cons, List.not_mem_nil, false_implies,
    implies_true, forall_const, and_true, ite_true_iff, Bool.not_eq_true',
    beq_eq_false_iff_ne, ne_eq]
  constructor
  · rintro ⟨h1, h2, h3, h4⟩ ⟨qx, qy⟩ hq1 hq2 hadj
    rcases hadj with ⟨hx, hy | hy⟩ | ⟨hy, hx | hx⟩
    · -- same column, q below: y = qy + 1, direction (0, -1)
      have e1 : ((x : Int) + 0).toNat = qx := by omega
      have e2 : ((y : Int) + -1).toNat = qy := by omega
      have := h3 (by omega)
      rw [e1, e2] at this
      exact this
    · -- same column, q above: qy = y + 1, direction (0, 1)
      have e1 : ((x : Int) + 0).toNat = qx := by omega
      have e2 : ((y : Int) + 1).toNat = qy := by omega
      have := h4 (by omega)
      rw [e1, e2] at this
      exact this
    · -- same row, q to the left: x = qx + 1, direction (-1, 0)
      have e1 : ((x : Int) + -1).toNat = qx := by omega
      have e2 : ((y : Int) + 0).toNat = qy := by omega
      have := h1 (by omega)
      rw [e1, e2] at this
      exact this
    · -- same row, q to the right: qx = x + 1, direction (1, 0)
      have e1 : ((x : Int) + 1).toNat = qx := by omega
      have e2 : ((y : Int) + 0).toNat = qy := by omega
      have := h2 (by omega)
      rw [e1, e2] at this
      exact this
  · intro h
    refine ⟨fun hc => ?_, fun hc => ?_, fun hc => ?_, fun hc => ?_⟩
    · exact h (((x : Int) + -1).toNat, ((y : Int) + 0).toNat) (by omega) (by omega)
        (Or.inr ⟨by omega, Or.inl (by omega)⟩)
    · exact h (((x : Int) + 1).toNat, ((y : Int) + 0).toNat) (by omega) (by omega)
        (Or.inr ⟨by omega, Or.inr (by omega)⟩)
    · exact h (((x : Int) + 0).toNat, ((y : Int) + -1).toNat) (by omega) (by omega)
        (Or.inl ⟨by omega, Or.inl (by omega)⟩)
    · exact h (((x : Int) + 0).toNat, ((y : Int) + 1).toNat) (by omega) (by omega)
        (Or.inl ⟨by omega, Or.inr (by omega)⟩)

theorem hnl_iff (size : Nat) (b : Board) (group : List (Nat × Nat)) :
    has_no_liberties size b group = true ↔
      ∀ p ∈ group, ∀ q : Nat × Nat, q.1 < size → q.2 < size →
        adjacent p q → b q.1 q.2 ≠ 0 := by
  simp only [has_no_liberties, List.all_eq_true]
  constructor
  · intro h p hp
    exact (hnl_point size b p).1 (h p hp)
  · intro h p hp
    exact (hnl_point size b p).2 (h p hp)

theorem hnl_of_empties_preserved {size : Nat} {b b' : Board}
    (h0 : ∀ x y, b x y = 0 → b' x y = 0) {G : List (Nat × Nat)}
    (h : has_no_liberties size b' G = true) : has_no_liberties size b G = true := by
  rw [hnl_iff] at h ⊢
  intro p hp q hq1 hq2 hadj hb
  exact h p hp q hq1 hq2 hadj (h0 _ _ hb)

theorem hnl_false_mono {size : Nat} {b b' : Board}
    (h0 : ∀ x y, b x y = 0 → b' x y = 0) {G : List (Nat × Nat)}
    (h : has_no_liberties size b G = false) : has_no_liberties size b' G = false := by
  cases hb : has_no_liberties size b' G with
  | false => rfl
  | true => rw [hnl_of_empties_preserved h0 hb] at h; cases h

/-! ### Removal and the capture loop -/

theorem removeGroup_pointwise (G : List (Nat × Nat)) (b : Board) (x y : Nat) :
    removeGroup b G x y = if (x, y) ∈ G then 0 else b x y := by
  induction G generalizing b with
  | nil => simp [removeGroup]
  | cons q rest ih =>
    obtain ⟨qx, qy⟩ := q
    simp only [removeGroup, ih, List.mem_cons, update, Prod.mk.injEq]
    by_cases h1 : (x, y) ∈ rest
    · simp [h1]
    · by_cases h2 : x = qx ∧ y = qy
      · simp [h1, h2]
      · simp [h1, h2, Prod.mk.injEq]

theorem removeGroup_empties (G : List (Nat × Nat)) (b : Board) (x y : Nat)
    (h : b x y = 0) : removeGroup b G x y = 0 := by
  rw [removeGroup_pointwise]
  split <;> simp [h]

theorem captureLoop_skip (size : Nat) (sc : Bool) (b bOrig : Board) (p : Prisoners)
    (hemp : ∀ x y, bOrig x y = 0 → b x y = 0) :
    ∀ gs : List (List (Nat × Nat)),
      (∀ G ∈ gs, has_no_liberties size bOrig G = false) →
      captureLoop size sc gs b p = (b, p) := by
  intro gs
  induction gs with
  | nil => intro _; rfl
  | cons G rest ih =>
    intro hgs
    have hGb : has_no_liberties size b G = false :=
      hnl_false_mono hemp (hgs G (by simp))
    simp only [captureLoop, hGb, Bool.false_eq_true, if_false]
    exact ih fun G' hG' => hgs G' (by simp [hG'])

theorem captureLoop_unique (size : Nat) (sc : Bool) (b : Board) (p : Prisoners)
    (G : List (Nat × Nat)) (hG : has_no_liberties size b G = true)
    (post : List (List (Nat × Nat)))
    (hpost : ∀ G' ∈ post, has_no_liberties size b G' = false) :
    ∀ pre : List (List (Nat × Nat)),
      (∀ G' ∈ pre, has_no_liberties size b G' = false) →
      captureLoop size sc (pre ++ G :: post) b p =
        (removeGroup b G, addPris p sc G.length) := by
  intro pre
  induction pre with
  | nil =>
    intro _
    simp only [List.nil_append, captureLoop, hG, if_true]
    exact captureLoop_skip size sc (removeGroup b G) b (addPris p sc G.length)
      (removeGroup_empties G b) post hpost
  | cons G' rest ih =>
    intro hpre
    have hG' : has_no_liberties size b G' = false := hpre G' (by simp)
    simp only [List.cons_append, captureLoop, hG', Bool.false_eq_true, if_false]
    exact ih fun G'' hG'' => hpre G'' (by simp [hG''])

/-! ### Color invariant of the group computation -/

theorem floodFill_color (size : Nat) (b : Board) (c : Nat) :
    ∀ (fuel : Nat) (frontier visited : List (Nat × Nat)),
      (∀ q ∈ frontier, b q.1 q.2 = c) → (∀ q ∈ visited, b q.1 q.2 = c) →
      ∀ q ∈ floodFill size b c fuel frontier visited, b q.1 q.2 = c := by
  intro fuel
  induction fuel with
  | zero =>
    intro frontier visited _ hv q hq
    exact hv q hq
  | succ n ih =>
    intro frontier visited hf hv q hq
    cases frontier with
    | nil => exact hv q hq
    | cons p rest =>
      rw [floodFill] at hq
      by_cases hp : p ∈ visited
      · rw [if_pos hp] at hq
        exact ih rest visited (fun r hr => hf r (by simp [hr])) hv q hq
      · rw [if_neg hp] at hq
        refine ih _ _ ?_ ?_ q hq
        · intro r hr
          rcases List.mem_append.1 hr with h | h
          · have := List.mem_filter.1 h
            simpa using this.2
          · exact hf r (by simp [h])
        · intro r hr
          rcases List.mem_cons.1 hr with rfl | h
          · exact hf r (by simp)
          · exact hv r h

theorem groupsLoop_color (size : Nat) (b : Board) (c : Nat) :
    ∀ (positions seen : List (Nat × Nat)),
      ∀ G ∈ groupsLoop size b c positions seen, ∀ q ∈ G, b q.1 q.2 = c := by
  intro positions
  induction positions with
  | nil =>
    intro seen G hG
    simp [groupsLoop] at hG
  | cons p rest ih =>
    intro seen G hG
    simp only [groupsLoop] at hG
    by_cases h1 : p ∈ seen
    · rw [if_pos h1] at hG
      exact ih seen G hG
    · rw [if_neg h1] at hG
      by_cases h2 : (b p.1 p.2 == c) = true
      · rw [if_pos h2] at hG
        rcases List.mem_cons.1 hG with rfl | h
        · exact floodFill_color size b c _ [p] []
            (by simpa using (beq_iff_eq.1 h2)) (by simp)
        · exact ih _ G h
      · rw [if_neg h2] at hG
        exact ih seen G hG

theorem get_stone_groups_color (size : Nat) (b : Board) (c : Nat) :
    ∀ G ∈ get_stone_groups size b c, ∀ q ∈ G, b q.1 q.2 = c :=
  groupsLoop_color size b c (allPositions size) []

theorem captureLoop_preserves_non_color (size : Nat) (sc : Bool) (c : Nat) (b2 : Board) :
    ∀ (gs : List (List (Nat × Nat))) (b : Board) (p : Prisoners),
      (∀ G ∈ gs, ∀ q ∈ G, b2 q.1 q.2 = c) →
      (∀ x y, b2 x y ≠ c → b x y = b2 x y) →
      ∀ x y, b2 x y ≠ c → (captureLoop size sc gs b p).1 x y = b2 x y := by
  intro gs
  induction gs with
  | nil =>
    intro b p _ hinv x y hxy
    exact hinv x y hxy
  | cons G rest ih =>
    intro b p hgs hinv x y hxy
    simp only [captureLoop]
    by_cases hc : has_no_liberties size b G = true
    · rw [if_pos hc]
      refine ih _ _ (fun G' h => hgs G' (by simp [h])) ?_ x y hxy
      intro x' y' hx'
      rw [removeGroup_pointwise]
      have hnotin : (x', y') ∉ G := fun hmem => hx' (hgs G (by simp) _ hmem)
      rw [if_neg hnotin]
      exact hinv x' y' hx'
    · rw [if_neg hc]
      exact ih _ _ (fun G' h => hgs G' (by simp [h])) hinv x y hxy

/-! ### Undo -/

theorem undo_move_cons {g : Game} {b : Board} {p : Prisoners}
    {rest : List (Board × Prisoners)} (h : g.history = (b, p) :: rest) :
    undo_move g =
      { g with board := b, prisoners := p, history := rest,
               blackTurn := ! g.blackTurn } := by
  unfold undo_move
  rw [h]

theorem undoN_shift (n : Nat) : ∀ g : Game, undoN g (n + 1) = undo_move (undoN g n) := by
  induction n with
  | zero => intro g; rfl
  | succ m ih =>
    intro g
    show undoN (undo_move g) (m + 1) = undo_move (undoN (undo_move g) m)
    exact ih (undo_move g)

theorem place_stone_true_state {g : Game} {col row : Int}
    (h : (place_stone g col row).1 = true) :
    (place_stone g col row).2.history = (g.board, g.prisoners) :: g.history ∧
    (place_stone g col row).2.blackTurn = (! g.blackTurn) := by
  obtain ⟨hv, hko⟩ := place_stone_true_cases h
  rw [place_stone_commit hv hko]
  exact ⟨rfl, rfl⟩

theorem undo_play (ms : List (Int × Int)) :
    ∀ g : Game, allSucceed g ms = true →
      (undoN (play g ms) ms.length).board = g.board ∧
      (undoN (play g ms) ms.length).prisoners = g.prisoners ∧
      (undoN (play g ms) ms.length).blackTurn = g.blackTurn ∧
      (undoN (play g ms) ms.length).history = g.history := by
  induction ms with
  | nil =>
    intro g _
    exact ⟨rfl, rfl, rfl, rfl⟩
  | cons m rest ih =>
    intro g hall
    rw [allSucceed, Bool.and_eq_true] at hall
    obtain ⟨h1, h2⟩ := hall
    obtain ⟨hhist, hturn⟩ := place_stone_true_state h1
    obtain ⟨ib, ip, it, ihist⟩ := ih (place_stone g m.1 m.2).2 h2
    have hstep :
        undoN (play g (m :: rest)) (m :: rest).length =
          undo_move (undoN (play (place_stone g m.1 m.2).2 rest) rest.length) := by
      rw [play, List.length_cons, undoN_shift]
    rw [hstep, undo_move_cons (ihist.trans hhist)]
    refine ⟨rfl, rfl, ?_, rfl⟩
    show (! (undoN (play (place_stone g m.1 m.2).2 rest) rest.length).blackTurn) =
      g.blackTurn
    rw [it, hturn, Bool.not_not]

/-! ### Concrete scenarios used by witnesses and counterexamples -/

/-- Black at (1,0), white at (0,0); black is to move and can capture at (0,1). -/
def capGame : Game :=
  play (initGame 3) [(1, 0), (0, 0)]

/-- Black at (1,0) and (0,1), white at (2,2); white is to move, and playing at
(0,0) puts white's own lone stone into a zero-liberty point. -/
def selfGame : Game :=
  play (initGame 3) [(1, 0), (2, 2), (0, 1)]

/-! ### The claims -/

/-- C5: for every group, `has_no_liberties` returns true iff every in-bounds
4-directional neighbour of every coordinate in the group is a non-empty cell;
off-board neighbours are skipped and count neither for nor against. -/
theorem C5_has_no_liberties_iff (size : Nat) (b : Board) (group : List (Nat × Nat)) :
    has_no_liberties size b group = true ↔
      ∀ p ∈ group, ∀ q : Nat × Nat, q.1 < size → q.2 < size →
        adjacent p q → b q.1 q.2 ≠ 0 :=
  hnl_iff size b group

/-- C2: on a validly placed stone, the attempt is flagged as a ko violation
exactly when the post-capture board equals the board two entries back in the
previous-boards log; on that violation `place_stone` returns false, reverts
only the just-placed cell to empty (captured stones stay removed), keeps the
turn, keeps the snapshot pushed for this attempt, and keeps the prisoners of
the speculative capture phase. -/
theorem C2_ko_detection_and_effects (g : Game) (col row : Int)
    (hv : is_valid_move g col row = true) :
    (is_ko_violation (attemptState g col row) = true ↔
      ∃ b0 rest, g.prevBoards = b0 :: rest ∧
        beqBoard g.size (attemptState g col row).board b0 = true) ∧
    (is_ko_violation (attemptState g col row) = true →
      (place_stone g col row).1 = false ∧
      (place_stone g col row).2.board col.toNat row.toNat = 0 ∧
      (∀ x y : Nat, ¬(x = col.toNat ∧ y = row.toNat) →
        (place_stone g col row).2.board x y = (attemptState g col row).board x y) ∧
      (place_stone g col row).2.blackTurn = g.blackTurn ∧
      (place_stone g col row).2.history = (g.board, g.prisoners) :: g.history ∧
      (place_stone g col row).2.prisoners = (attemptState g col row).prisoners) := by
  constructor
  · have hscrut : (attemptState g col row).prevBoards = g.board :: g.prevBoards :=
      attemptState_prevBoards g col row
    rw [is_ko_violation, hscrut, attemptState_size]
    cases g.prevBoards with
    | nil => simp
    | cons b0 rest =>
      simp only []
      constructor
      · intro h
        exact ⟨b0, rest, rfl, h⟩
      · rintro ⟨b0', rest', heq, h⟩
        obtain ⟨rfl, rfl⟩ : b0' = b0 ∧ rest' = rest := by
          constructor <;> injection heq <;> simp_all
        exact h
  · intro hko
    have hps := place_stone_ko hv hko
    rw [hps]
    refine ⟨rfl, ?_, ?_, rfl, rfl, rfl⟩
    · show update (attemptState g col row).board col.toNat row.toNat 0
        col.toNat row.toNat = 0
      simp [update]
    · intro x y hxy
      show update (attemptState g col row).board col.toNat row.toNat 0 x y =
        (attemptState g col row).board x y
      simp [update, hxy]

/-- C2 witness: the ko recapture attempt in the standard ko shape. -/
theorem C2_witness :
    is_valid_move koGame8 2 1 = true ∧
    ((is_ko_violation (attemptState koGame8 2 1) = true ↔
      ∃ b0 rest, koGame8.prevBoards = b0 :: rest ∧
        beqBoard koGame8.size (attemptState koGame8 2 1).board b0 = true) ∧
    (is_ko_violation (attemptState koGame8 2 1) = true →
      (place_stone koGame8 2 1).1 = false ∧
      (place_stone koGame8 2 1).2.board (2 : Int).toNat (1 : Int).toNat = 0 ∧
      (∀ x y : Nat, ¬(x = (2 : Int).toNat ∧ y = (1 : Int).toNat) →
        (place_stone koGame8 2 1).2.board x y = (attemptState koGame8 2 1).board x y) ∧
      (place_stone koGame8 2 1).2.blackTurn = koGame8.blackTurn ∧
      (place_stone koGame8 2 1).2.history =
        (koGame8.board, koGame8.prisoners) :: koGame8.history ∧
      (place_stone koGame8 2 1).2.prisoners = (attemptState koGame8 2 1).prisoners)) :=
  ⟨by decide, C2_ko_detection_and_effects koGame8 2 1 (by decide)⟩

/-- C9: when a ko-rejected attempt captured k > 0 opponent stones in its
speculative phase, the placing color's prisoner count after the rejected call
is its old value plus k (the increment is not rolled back), and
`calculate_score` subsequently reports exactly that inflated count. -/
theorem C9_ko_rejection_inflates_prisoners (g : Game) (col row : Int) (k : Nat)
    (hv : is_valid_move g col row = true)
    (hko : is_ko_violation (attemptState g col row) = true)
    (_hkpos : 0 < k)
    (hk : (attemptState g col row).prisoners = addPris g.prisoners g.blackTurn k) :
    (place_stone g col row).1 = false ∧
    prisOf (place_stone g col row).2.prisoners g.blackTurn =
      prisOf g.prisoners g.blackTurn + k ∧
    calculate_score (place_stone g col row).2 =
      { black := ((addPris g.prisoners g.blackTurn k).black : Rat)
        white := ((addPris g.prisoners g.blackTurn k).white : Rat) + 13 / 2 } := by
  have hps := place_stone_ko hv hko
  rw [hps]
  refine ⟨rfl, ?_, ?_⟩
  · show prisOf (attemptState g col row).prisoners g.blackTurn = _
    rw [hk]
    cases g.blackTurn <;> simp [prisOf, addPris]
  · show calculate_score { attemptState g col row with
      board := update (attemptState g col row).board col.toNat row.toNat 0 } = _
    simp only [calculate_score]
    rw [show ({ attemptState g col row with
        board := update (attemptState g col row).board col.toNat row.toNat 0 }
          : Game).prisoners = (attemptState g col row).prisoners from rfl, hk]

/-- C9 witness: the ko recapture attempt captured one white stone; black's
count goes from 0 to 1 even though the move is rejected. -/
theorem C9_witness :
    is_valid_move koGame8 2 1 = true ∧
    is_ko_violation (attemptState koGame8 2 1) = true ∧
    0 < 1 ∧
    (attemptState koGame8 2 1).prisoners = addPris koGame8.prisoners koGame8.blackTurn 1 ∧
    ((place_stone koGame8 2 1).1 = false ∧
    prisOf (place_stone koGame8 2 1).2.prisoners koGame8.blackTurn =
      prisOf koGame8.prisoners koGame8.blackTurn + 1 ∧
    calculate_score (place_stone koGame8 2 1).2 =
      { black := ((addPris koGame8.prisoners koGame8.blackTurn 1).black : Rat)
        white := ((addPris koGame8.prisoners koGame8.blackTurn 1).white : Rat) + 13 / 2 }) :=
  ⟨by decide, by decide, by decide, by decide,
    C9_ko_rejection_inflates_prisoners koGame8 2 1 1 (by decide) (by decide)
      (by decide) (by decide)⟩

/-- C10: undoing right after a ko-rejected `place_stone` restores the board
and the prisoner counts from immediately before the rejected attempt, but
leaves the turn indicator flipped relative to before the attempt. -/
theorem C10_undo_after_ko_rejection (g : Game) (col row : Int)
    (hv : is_valid_move g col row = true)
    (hko : is_ko_violation (attemptState g col row) = true) :
    (place_stone g col row).1 = false ∧
    (undo_move (place_stone g col row).2).board = g.board ∧
    (undo_move (place_stone g col row).2).prisoners = g.prisoners ∧
    (undo_move (place_stone g col row).2).blackTurn = (! g.blackTurn) := by
  have hps := place_stone_ko hv hko
  rw [hps]
  have hh : ({ attemptState g col row with
      board := update (attemptState g col row).board col.toNat row.toNat 0 }
        : Game).history = (g.board, g.prisoners) :: g.history := rfl
  rw [undo_move_cons hh]
  exact ⟨rfl, rfl, rfl, rfl⟩

/-- C10 witness: undo right after the rejected ko recapture. -/
theorem C10_witness :
    is_valid_move koGame8 2 1 = true ∧
    is_ko_violation (attemptState koGame8 2 1) = true ∧
    ((place_stone koGame8 2 1).1 = false ∧
    (undo_move (place_stone koGame8 2 1).2).board = koGame8.board ∧
    (undo_move (place_stone koGame8 2 1).2).prisoners = koGame8.prisoners ∧
    (undo_move (place_stone koGame8 2 1).2).blackTurn = (! koGame8.blackTurn)) :=
  ⟨by decide, by decide,
    C10_undo_after_ko_rejection koGame8 2 1 (by decide) (by decide)⟩

/-- C8: the turn indicator flips exactly when `place_stone` returns true and is
unchanged when it returns false; a call with out-of-bounds or occupied
coordinates returns false, mutates nothing at all, and hence repeating it
returns false again. -/
theorem C8_turn_flip_and_invalid_rejection (g : Game) (col row : Int)
    (g2 : Game) (c2 r2 : Int)
    (hinv : is_valid_move g col row = false) :
    ((place_stone g2 c2 r2).2.blackTurn =
      if (place_stone g2 c2 r2).1 = true then ! g2.blackTurn else g2.blackTurn) ∧
    place_stone g col row = (false, g) ∧
    (place_stone ((place_stone g col row).2) col row).1 = false := by
  refine ⟨?_, place_stone_invalid hinv, ?_⟩
  · by_cases hv : is_valid_move g2 c2 r2 = true
    · by_cases hko : is_ko_violation (attemptState g2 c2 r2) = true
      · rw [place_stone_ko hv hko]
        simp [attemptState_blackTurn]
      · rw [place_stone_commit hv (by simpa using hko)]
        simp
    · rw [place_stone_invalid (by simpa using hv)]
      simp
  · rw [place_stone_invalid hinv]
    show (place_stone g col row).1 = false
    rw [place_stone_invalid hinv]

/-- C8 witness: the out-of-bounds coordinate (-1, 0) on an empty 2×2 board. -/
theorem C8_witness :
    is_valid_move (initGame 2) (-1) 0 = false ∧
    (((place_stone koGame8 2 1).2.blackTurn =
      if (place_stone koGame8 2 1).1 = true then ! koGame8.blackTurn
      else koGame8.blackTurn) ∧
    place_stone (initGame 2) (-1) 0 = (false, initGame 2) ∧
    (place_stone ((place_stone (initGame 2) (-1) 0).2) (-1) 0).1 = false) :=
  ⟨by decide, C8_turn_flip_and_invalid_rejection (initGame 2) (-1) 0 koGame8 2 1 (by decide)⟩

/-- C4: when placing a stone leaves exactly one opponent group (of size K)
without liberties on the post-placement board, a successful `place_stone`
credits exactly K prisoners to the placing color, leaves the other color's
count unchanged, empties all K cells of that group, and changes no other cell
of the post-placement board. -/
theorem C4_capture_exactly_one_group (g : Game) (col row : Int)
    (pre post : List (List (Nat × Nat))) (G : List (Nat × Nat)) (K : Nat)
    (hv : is_valid_move g col row = true)
    (hgs : get_stone_groups g.size (placedBoard g col row) (oppVal g.blackTurn) =
      pre ++ G :: post)
    (hG : has_no_liberties g.size (placedBoard g col row) G = true)
    (hpre : ∀ G' ∈ pre, has_no_liberties g.size (placedBoard g col row) G' = false)
    (hpost : ∀ G' ∈ post, has_no_liberties g.size (placedBoard g col row) G' = false)
    (hK : G.length = K)
    (hsucc : (place_stone g col row).1 = true) :
    prisOf (place_stone g col row).2.prisoners g.blackTurn =
      prisOf g.prisoners g.blackTurn + K ∧
    prisOf (place_stone g col row).2.prisoners (! g.blackTurn) =
      prisOf g.prisoners (! g.blackTurn) ∧
    (∀ q ∈ G, (place_stone g col row).2.board q.1 q.2 = 0) ∧
    (∀ x y : Nat, (x, y) ∉ G →
      (place_stone g col row).2.board x y = placedBoard g col row x y) := by
  obtain ⟨-, hko⟩ := place_stone_true_cases hsucc
  have hcap : capture_stones g.size (placedBoard g col row) g.blackTurn g.prisoners =
      (removeGroup (placedBoard g col row) G, addPris g.prisoners g.blackTurn G.length) := by
    rw [capture_stones, hgs]
    exact captureLoop_unique g.size g.blackTurn (placedBoard g col row) g.prisoners
      G hG post hpost pre hpre
  have hb : (attemptState g col row).board = removeGroup (placedBoard g col row) G := by
    rw [attemptState_board, hcap]
  have hp : (attemptState g col row).prisoners = addPris g.prisoners g.blackTurn G.length := by
    rw [attemptState_prisoners, hcap]
  rw [place_stone_commit hv hko]
  refine ⟨?_, ?_, ?_, ?_⟩
  · show prisOf (attemptState g col row).prisoners g.blackTurn = _
    rw [hp, hK]
    cases g.blackTurn <;> simp [prisOf, addPris]
  · show prisOf (attemptState g col row).prisoners (! g.blackTurn) = _
    rw [hp]
    cases g.blackTurn <;> simp [prisOf, addPris]
  · intro q hq
    show (attemptState g col row).board q.1 q.2 = 0
    rw [hb, removeGroup_pointwise]
    simp [hq]
  · intro x y hxy
    show (attemptState g col row).board x y = placedBoard g col row x y
    rw [hb, removeGroup_pointwise, if_neg hxy]

/-- C4 witness: black surrounds the lone white stone at (0,0) on a 3×3 board;
the capture credits exactly one prisoner and empties exactly that cell. -/
theorem C4_witness :
    is_valid_move capGame 0 1 = true ∧
    get_stone_groups capGame.size (placedBoard capGame 0 1) (oppVal capGame.blackTurn) =
      [] ++ [(0, 0)] :: [] ∧
    has_no_liberties capGame.size (placedBoard capGame 0 1) [(0, 0)] = true ∧
    ([(0, 0)] : List (Nat × Nat)).length = 1 ∧
    (place_stone capGame 0 1).1 = true ∧
    (prisOf (place_stone capGame 0 1).2.prisoners capGame.blackTurn =
      prisOf capGame.prisoners capGame.blackTurn + 1 ∧
    prisOf (place_stone capGame 0 1).2.prisoners (! capGame.blackTurn) =
      prisOf capGame.prisoners (! capGame.blackTurn) ∧
    (∀ q ∈ ([(0, 0)] : List (Nat × Nat)), (place_stone capGame 0 1).2.board q.1 q.2 = 0) ∧
    (∀ x y : Nat, (x, y) ∉ ([(0, 0)] : List (Nat × Nat)) →
      (place_stone capGame 0 1).2.board x y = placedBoard capGame 0 1 x y)) :=
  ⟨by decide, by decide, by decide, by decide, by decide,
    C4_capture_exactly_one_group capGame 0 1 [] [] [(0, 0)] 1 (by decide) (by decide)
      (by decide) (by simp) (by simp) (by decide) (by decide)⟩

/-- C6: the engine has no self-capture check: a move into a fully surrounded
empty point that leaves the mover's own lone stone with zero liberties is
still committed (returns true) whenever the coordinate is valid and no ko
conflict arises, and capture resolution never removes stones of the placing
color (only opponent-colored cells can change). -/
theorem C6_self_capture_not_blocked (g : Game) (col row : Int)
    (hv : is_valid_move g col row = true)
    (hko : is_ko_violation (attemptState g col row) = false)
    (_hsui : has_no_liberties g.size (placedBoard g col row)
      [(col.toNat, row.toNat)] = true) :
    (place_stone g col row).1 = true ∧
    (place_stone g col row).2.board col.toNat row.toNat = stoneVal g.blackTurn ∧
    (∀ x y : Nat, placedBoard g col row x y ≠ oppVal g.blackTurn →
      (place_stone g col row).2.board x y = placedBoard g col row x y) := by
  have hpres : ∀ x y, placedBoard g col row x y ≠ oppVal g.blackTurn →
      (capture_stones g.size (placedBoard g col row) g.blackTurn g.prisoners).1 x y =
        placedBoard g col row x y := by
    intro x y hxy
    exact captureLoop_preserves_non_color g.size g.blackTurn (oppVal g.blackTurn)
      (placedBoard g col row)
      (get_stone_groups g.size (placedBoard g col row) (oppVal g.blackTurn))
      (placedBoard g col row) g.prisoners
      (get_stone_groups_color g.size (placedBoard g col row) (oppVal g.blackTurn))
      (fun _ _ _ => rfl) x y hxy
  rw [place_stone_commit hv hko]
  have hsv : stoneVal g.blackTurn ≠ oppVal g.blackTurn := by
    cases g.blackTurn <;> simp [stoneVal, oppVal]
  have hplaced : placedBoard g col row col.toNat row.toNat = stoneVal g.blackTurn := by
    simp [placedBoard, update]
  refine ⟨rfl, ?_, ?_⟩
  · show (capture_stones g.size (placedBoard g col row) g.blackTurn g.prisoners).1
      col.toNat row.toNat = stoneVal g.blackTurn
    rw [hpres col.toNat row.toNat (by rw [hplaced]; exact hsv), hplaced]
  · intro x y hxy
    exact hpres x y hxy

/-- C6 witness: white plays into the surrounded corner (0,0); the move is
accepted and white's zero-liberty stone stays on the board. -/
theorem C6_witness :
    is_valid_move selfGame 0 0 = true ∧
    is_ko_violation (attemptState selfGame 0 0) = false ∧
    has_no_liberties selfGame.size (placedBoard selfGame 0 0)
      [((0 : Int).toNat, (0 : Int).toNat)] = true ∧
    ((place_stone selfGame 0 0).1 = true ∧
    (place_stone selfGame 0 0).2.board (0 : Int).toNat (0 : Int).toNat =
      stoneVal selfGame.blackTurn ∧
    (∀ x y : Nat, placedBoard selfGame 0 0 x y ≠ oppVal selfGame.blackTurn →
      (place_stone selfGame 0 0).2.board x y = placedBoard selfGame 0 0 x y)) :=
  ⟨by decide, by decide, by decide,
    C6_self_capture_not_blocked selfGame 0 0 (by decide) (by decide) (by decide)⟩

/-- C7: after any sequence of N accepted moves from a fresh engine, N undos
restore exactly the initial state: the all-empty board, zero prisoners for
both colors, and black to move. -/
theorem C7_undo_restores_initial (size : Nat) (moves : List (Int × Int))
    (hall : allSucceed (initGame size) moves = true) :
    (undoN (play (initGame size) moves) moves.length).board = (initGame size).board ∧
    (undoN (play (initGame size) moves) moves.length).prisoners =
      { black := 0, white := 0 } ∧
    (undoN (play (initGame size) moves) moves.length).blackTurn = true := by
  obtain ⟨hb, hp, ht, -⟩ := undo_play moves (initGame size) hall
  exact ⟨hb, hp, ht⟩

/-- C7 witness: two moves on a 3×3 board, then two undos. -/
theorem C7_witness :
    allSucceed (initGame 3) [(0, 0), (1, 1)] = true ∧
    ((undoN (play (initGame 3) [(0, 0), (1, 1)]) ([(0, 0), (1, 1)] :
        List (Int × Int)).length).board = (initGame 3).board ∧
    (undoN (play (initGame 3) [(0, 0), (1, 1)]) ([(0, 0), (1, 1)] :
        List (Int × Int)).length).prisoners = { black := 0, white := 0 } ∧
    (undoN (play (initGame 3) [(0, 0), (1, 1)]) ([(0, 0), (1, 1)] :
        List (Int × Int)).length).blackTurn = true) :=
  ⟨by decide, C7_undo_restores_initial 3 [(0, 0), (1, 1)] (by decide)⟩

/-- C1 counterexample: in the standard 4-stone ko shape (reached by the eight
legal moves of `koMoves`, white's last move capturing one black stone),
black's immediate recapture at (2,1) is indeed rejected, but the board does
not remain as it was after white's capture: the white stone at (1,1), captured
during the rejected attempt, is gone after the call. -/
theorem C1_counterexample_board_not_preserved :
    allSucceed (initGame 4) koMoves = true ∧
    (place_stone koGame8 2 1).1 = false ∧
    koGame8.board 1 1 = 2 ∧
    (place_stone koGame8 2 1).2.board 1 1 = 0 := by
  refine ⟨by decide, by decide, by decide, by decide⟩

/-- C1 amended: in the standard 4-stone ko shape, black's immediate recapture
is rejected (`place_stone` returns false) and the board after the call equals
the board after white's capture everywhere except at (1,1): the white stone
captured during the rejected attempt stays removed, while the just-placed
black stone at (2,1) is reverted to empty. -/
theorem C1_amended_ko_rejection :
    (place_stone koGame8 2 1).1 = false ∧
    (place_stone koGame8 2 1).2.board 2 1 = 0 ∧
    (place_stone koGame8 2 1).2.board 1 1 = 0 ∧
    (∀ x, x < 4 → ∀ y, y < 4 → ¬(x = 1 ∧ y = 1) →
      (place_stone koGame8 2 1).2.board x y = koGame8.board x y) := by
  refine ⟨by decide, by decide, by decide, by decide⟩

/-- C3 counterexample: the history stack does receive a residual snapshot from
a rejected move: the ko-rejected recapture leaves the history one entry longer
than the number of committed moves (8 committed, length becomes 9). -/
theorem C3_counterexample_residual_snapshot :
    allSucceed (initGame 4) koMoves = true ∧
    koGame8.history.length = 8 ∧
    (place_stone koGame8 2 1).1 = false ∧
    (place_stone koGame8 2 1).2.history.length = 9 := by
  refine ⟨by decide, by decide, by decide, by decide⟩

/-- C3 amended: a `place_stone` call pushes exactly one history snapshot iff
validation passes — so committed moves and ko-rejected attempts each leave one
entry, while out-of-bounds or occupied rejections leave none — and `undo_move`
removes exactly the most recent entry (no-op on an empty stack); hence the
history length equals committed moves plus ko-rejected attempts since the
stack was last empty. -/
theorem C3_amended_history_discipline (g : Game) (col row : Int) :
    (place_stone g col row).2.history =
      (if is_valid_move g col row = true then (g.board, g.prisoners) :: g.history
       else g.history) ∧
    (undo_move g).history = g.history.tail := by
  constructor
  · by_cases hv : is_valid_move g col row = true
    · rw [if_pos hv]
      by_cases hko : is_ko_violation (attemptState g col row) = true
      · rw [place_stone_ko hv hko]
        rfl
      · rw [place_stone_commit hv (by simpa using hko)]
        rfl
    · rw [if_neg hv, place_stone_invalid (by simpa using hv)]
  · cases hh : g.history with
    | nil => simp [undo_move, hh]
    | cons e rest =>
      obtain ⟨b, p⟩ := e
      simp [undo_move, hh]

end GoSpec
